import Mathlib

/-!
Shallow embedding of `treeherder/model/management/commands/cycle_data.py`.

Timestamps (`datetime.datetime`) and durations (`datetime.timedelta`) are
modelled as integer seconds; database tables as Lean lists of rows; a raised
Python exception as the `Except.error` / `Option.none` branch of a result type.
-/

/-- Duration `datetime.timedelta(days=d)`, in seconds. -/
def timedeltaDays (d : Int) : Int := d * 86400

/-- Duration `datetime.timedelta(weeks=w)`, in seconds. -/
def timedeltaWeeks (w : Int) : Int := timedeltaDays (w * 7)

/-- Constant `MINIMUM_PERFHERDER_EXPIRE_INTERVAL = 365`. -/
def MINIMUM_PERFHERDER_EXPIRE_INTERVAL : Int := 365

/-- The `settings.SITE_HOSTNAME` value that disables the retention floor check. -/
def PROTOTYPE2_HOSTNAME : String := "treeherder-prototype2.herokuapp.com"

/-- A `performance_datum` row, restricted to the columns the command reads. -/
structure PerformanceDatum where
  id : Nat
  pushTimestamp : Int
  repositoryId : Nat
deriving DecidableEq

/-- A `repository` row, restricted to the columns the command reads. -/
structure Repository where
  id : Nat
  name : String
deriving DecidableEq

/-- A `job` row, restricted to the foreign keys `remove_leftovers` reads. -/
structure Job where
  id : Nat
  job_type_id : Nat
  job_group_id : Nat
  machine_id : Nat
deriving DecidableEq

/-- Class `MainRemovalStrategy`: its three fields, all set in `__init__`. -/
structure MainRemovalStrategy where
  cycle_interval : Int
  chunk_size : Nat
  max_timestamp : Int
deriving DecidableEq

/-- Constructor `MainRemovalStrategy.__init__`:
`self._max_timestamp = datetime.datetime.now() - cycle_interval`, with
`now` the construction-time clock reading. -/
def MainRemovalStrategy.init (cycle_interval : Int) (chunk_size : Nat)
    (now : Int) : MainRemovalStrategy :=
  { cycle_interval := cycle_interval
    chunk_size := chunk_size
    max_timestamp := now - cycle_interval }

/-- The boundary-id query
`self._manager.filter(push_timestamp__gt=self._max_timestamp).order_by('-id')[0].id`:
the largest id among rows strictly newer than the cutoff; `none` models the
`IndexError` Python raises when that queryset is empty. -/
def MainRemovalStrategy.maxNewerId (s : MainRemovalStrategy)
    (db : List PerformanceDatum) : Option Nat :=
  ((db.filter (fun r => s.max_timestamp < r.pushTimestamp)).map (fun r => r.id)).max?

/-- Method `MainRemovalStrategy._find_ideal_chunk_size`. The source orders
`older_ids` by ascending id before slicing; only the slice's length is used
and sorting preserves length, so the sort is elided here. -/
def MainRemovalStrategy.find_ideal_chunk_size (s : MainRemovalStrategy)
    (db : List PerformanceDatum) : Option Nat :=
  match s.maxNewerId db with
  | none => none
  | some max_id =>
      let older_ids :=
        ((db.filter (fun r =>
          decide (r.pushTimestamp ≤ s.max_timestamp) && decide (r.id ≤ max_id))).map
            (fun r => r.id)).take s.chunk_size
      some (if older_ids.length = 0 then s.chunk_size else older_ids.length)

/-- Statement `DELETE FROM performance_datum WHERE <p> LIMIT n` with no ORDER BY:
deletes at most `n` rows satisfying `p`, modelled as the first `n` such rows
in table order. Returns the remaining rows. -/
def deleteLimit (p : PerformanceDatum → Bool) : Nat → List PerformanceDatum → List PerformanceDatum
  | _, [] => []
  | 0, l => l
  | n + 1, r :: rest =>
      if p r then deleteLimit p n rest else r :: deleteLimit p (n + 1) rest

/-- Method `MainRemovalStrategy.remove`: compute the chunk size, then issue one
bounded DELETE of rows with `push_timestamp < self._max_timestamp`. -/
def MainRemovalStrategy.remove (s : MainRemovalStrategy)
    (db : List PerformanceDatum) : Except String (List PerformanceDatum) :=
  match s.find_ideal_chunk_size db with
  | none => .error "IndexError"
  | some chunk_size =>
      .ok (deleteLimit (fun r => decide (r.pushTimestamp < s.max_timestamp)) chunk_size db)

/-- Class `TryDataRemoval`: fields set in `__init__`, plus the memoized
`__try_repo_id` backing the `try_repo` property (`none` until first use). -/
structure TryDataRemoval where
  cycle_interval : Int
  chunk_size : Nat
  max_timestamp : Int
  try_repo_id : Option Nat
deriving DecidableEq

/-- Constructor `TryDataRemoval.__init__`: the interval is hard-coded to
`datetime.timedelta(weeks=4)`; only `chunk_size` is a parameter. -/
def TryDataRemoval.init (chunk_size : Nat) (now : Int) : TryDataRemoval :=
  { cycle_interval := timedeltaWeeks 4
    chunk_size := chunk_size
    max_timestamp := now - timedeltaWeeks 4
    try_repo_id := none }

/-- The `try_repo` property: memoized `Repository.objects.get(name='try').id`.
Returns the id and the (possibly updated) strategy state; `none` models the
`DoesNotExist` exception when no repository is named `try`. -/
def TryDataRemoval.try_repo (s : TryDataRemoval) (repos : List Repository) :
    Option (Nat × TryDataRemoval) :=
  match s.try_repo_id with
  | some i => some (i, s)
  | none =>
      match repos.find? (fun r => r.name == "try") with
      | none => none
      | some r => some (r.id, { s with try_repo_id := some r.id })

/-- Method `TryDataRemoval._find_ideal_chunk_size`: like the main strategy's but
with every queryset narrowed to `repository_id = self.try_repo`. The id sort
on `older_ids` is elided, as only the slice's length is used. -/
def TryDataRemoval.find_ideal_chunk_size (s : TryDataRemoval)
    (repos : List Repository) (db : List PerformanceDatum) :
    Except String (Nat × TryDataRemoval) :=
  match s.try_repo repos with
  | none => .error "DoesNotExist"
  | some (repo, s1) =>
      match ((db.filter (fun r =>
          decide (s1.max_timestamp < r.pushTimestamp) && r.repositoryId == repo)).map
            (fun r => r.id)).max? with
      | none => .error "IndexError"
      | some max_id =>
          let older_ids :=
            ((db.filter (fun r =>
              decide (r.pushTimestamp ≤ s1.max_timestamp) && decide (r.id ≤ max_id)
                && r.repositoryId == repo)).map (fun r => r.id)).take s1.chunk_size
          .ok ((if older_ids.length = 0 then s1.chunk_size else older_ids.length), s1)

/-- Method `TryDataRemoval.remove`: compute the chunk size (which first resolves
`try_repo`), then issue one bounded DELETE of `try`-repository rows with
`push_timestamp < self._max_timestamp`. -/
def TryDataRemoval.remove (s : TryDataRemoval) (repos : List Repository)
    (db : List PerformanceDatum) :
    Except String (List PerformanceDatum × TryDataRemoval) :=
  match s.find_ideal_chunk_size repos db with
  | .error e => .error e
  | .ok (chunk_size, s1) =>
      match s1.try_repo repos with
      | none => .error "DoesNotExist"
      | some (repo, s2) =>
          .ok (deleteLimit
                (fun r => r.repositoryId == repo
                  && decide (r.pushTimestamp < s2.max_timestamp)) chunk_size db,
               s2)

/-- Class `PerfherderCycler`: retained option fields (`DataCycler.__init__`). -/
structure PerfherderCycler where
  cycle_interval : Int
  chunk_size : Nat
  sleep_time : Nat
deriving DecidableEq

/-- Constructor `PerfherderCycler.__init__`: pure construction (no database access);
raises `ValueError` when `days < MINIMUM_PERFHERDER_EXPIRE_INTERVAL` and
`settings.SITE_HOSTNAME` is not the prototype2 hostname. -/
def PerfherderCycler.init (days : Int) (chunk_size sleep_time : Nat)
    (site_hostname : String) : Except String PerfherderCycler :=
  if days < MINIMUM_PERFHERDER_EXPIRE_INTERVAL ∧ site_hostname ≠ PROTOTYPE2_HOSTNAME then
    .error "Cannot remove performance data that is more recent than 365 days"
  else
    .ok { cycle_interval := timedeltaDays days
          chunk_size := chunk_size
          sleep_time := sleep_time }

/-- The `removal_strategies` list built inside `PerfherderCycler.cycle`:
`MainRemovalStrategy(self.cycle_interval, self.chunk_size)` and
`TryDataRemoval(self.chunk_size)`. -/
def PerfherderCycler.removal_strategies (c : PerfherderCycler) (now : Int) :
    MainRemovalStrategy × TryDataRemoval :=
  (MainRemovalStrategy.init c.cycle_interval c.chunk_size now,
   TryDataRemoval.init c.chunk_size now)

/-- Outcome of the `PerformanceDatum.objects.cycle_data(...)` collaborator
call inside `PerfherderCycler.cycle`: it finishes, raises
`MaxRuntimeExceeded`, or raises some other exception. -/
inductive PerfCycleOutcome where
  | completed
  | maxRuntimeExceeded (msg : String)
  | failed (msg : String)
deriving DecidableEq

/-- The exception handling of `PerfherderCycler.cycle`: only
`MaxRuntimeExceeded` is caught (`logger.warning(ex)`); any other exception
propagates. Returns the warning messages logged. -/
def PerfherderCycler.cycle_handle (outcome : PerfCycleOutcome) :
    Except String (List String) :=
  match outcome with
  | .completed => .ok []
  | .maxRuntimeExceeded msg => .ok [msg]
  | .failed msg => .error msg

/-- The treeherder tables `remove_leftovers` touches: `job` plus the three
ancillary tables, each ancillary row reduced to its primary-key id. -/
structure TreeherderDB where
  jobs : List Job
  job_types : List Nat
  job_groups : List Nat
  machines : List Nat
deriving DecidableEq

/-- Query `Job.objects.only(id_name).values_list(id_name, flat=True).distinct()`:
the distinct foreign-key ids used by some job. -/
def used_ids (fk : Job → Nat) (jobs : List Job) : List Nat :=
  (jobs.map fk).dedup

/-- Query `model.objects.exclude(id__in=used_ids).values_list('id', flat=True)`:
ids of ancillary rows referenced by no job. -/
def unused_ids (fk : Job → Nat) (jobs : List Job) (table : List Nat) : List Nat :=
  table.filter (fun i => !(used_ids fk jobs).contains i)

/-- The `while len(unused_ids)` loop of `prune`, as the list of `delete_ids`
slices it issues, one per DELETE statement: repeatedly take the first
`chunk_size` ids and drop them until none remain. With `chunk_size = 0` the
Python loop never terminates; this function returns `[]` there, and every
theorem about it assumes `0 < chunk_size`. -/
def prune_statements (chunk_size : Nat) (ids : List Nat) : List (List Nat) :=
  if h : chunk_size = 0 ∨ ids = [] then []
  else
    have : (ids.drop chunk_size).length < ids.length := by
      rw [List.length_drop]
      push_neg at h
      exact Nat.sub_lt (List.length_pos.mpr h.2) (Nat.pos_of_ne_zero h.1)
    ids.take chunk_size :: prune_statements chunk_size (ids.drop chunk_size)
termination_by ids.length

/-- Deletion `model.objects.filter(id__in=delete_ids).delete()`, applied for each
DELETE statement in order: the table with all ids of all statements removed. -/
def delete_ids (stmts : List (List Nat)) (table : List Nat) : List Nat :=
  stmts.foldl (fun t st => t.filter (fun i => !st.contains i)) table

/-- The inner `prune(id_name, model)` of `remove_leftovers`: final state of
one ancillary table after its chunked deletion loop. -/
def prune (chunk_size : Nat) (fk : Job → Nat) (jobs : List Job)
    (table : List Nat) : List Nat :=
  delete_ids (prune_statements chunk_size (unused_ids fk jobs table)) table

/-- Method `TreeherderCycler.remove_leftovers`: prune job types, then job groups,
then machines. The three tables are independent, so the fixed order does not
affect the result. -/
def TreeherderCycler.remove_leftovers (chunk_size : Nat) (db : TreeherderDB) :
    TreeherderDB :=
  { db with
    job_types := prune chunk_size (fun j => j.job_type_id) db.jobs db.job_types
    job_groups := prune chunk_size (fun j => j.job_group_id) db.jobs db.job_groups
    machines := prune chunk_size (fun j => j.machine_id) db.jobs db.machines }

/-- Outcome of the `Job.objects.cycle_data(...)` collaborator call inside
`TreeherderCycler.cycle`: rows deleted, or an `OperationalError`, or some
other exception; each case carries the `job` table state after the call. -/
inductive JobsCycleOutcome where
  | ok (rs_deleted : Nat) (jobs : List Job)
  | operationalError (msg : String) (jobs : List Job)
  | failed (msg : String) (jobs : List Job)
deriving DecidableEq

/-- Method `TreeherderCycler.cycle`: runs `Job.objects.cycle_data` under a
`try/except OperationalError`, then `remove_leftovers()` after the `try`
block. Only `OperationalError` is caught and logged; any other exception
propagates before `remove_leftovers` runs. Returns the final tables and the
messages logged. -/
def TreeherderCycler.cycle (chunk_size : Nat) (db : TreeherderDB)
    (outcome : JobsCycleOutcome) : Except String (TreeherderDB × List String) :=
  match outcome with
  | .ok n jobs1 =>
      .ok (TreeherderCycler.remove_leftovers chunk_size { db with jobs := jobs1 },
           ["Cycling jobs across all repositories",
            "Deleted " ++ toString n ++ " jobs",
            "Pruning ancillary data: job types, groups and machines"])
  | .operationalError msg jobs1 =>
      .ok (TreeherderCycler.remove_leftovers chunk_size { db with jobs := jobs1 },
           ["Cycling jobs across all repositories",
            "Error running cycle_data: " ++ msg,
            "Pruning ancillary data: job types, groups and machines"])
  | .failed msg _ => .error msg


/-! ### Concrete fixtures used by witness checks -/

/-- A fixed construction-time clock reading for concrete checks. -/
def nowW : Int := 20000000

/-- Main strategy with the default options: 120-day interval, chunk size 100. -/
def mainW : MainRemovalStrategy := MainRemovalStrategy.init (timedeltaDays 120) 100 nowW

/-- Try strategy with the default chunk size 100. -/
def tryW : TryDataRemoval := TryDataRemoval.init 100 nowW

/-- Fixture `tryW` after its `try_repo` lookup has been memoized. -/
def tryW1 : TryDataRemoval := { tryW with try_repo_id := some 4 }

/-- A repository table containing the `try` repository, with id 4. -/
def reposW : List Repository := [{ id := 4, name := "try" }]

/-- A row far older than either strategy's cutoff. -/
def rowOldW : PerformanceDatum := { id := 1, pushTimestamp := 0, repositoryId := 4 }

/-- A row newer than either strategy's cutoff. -/
def rowNewW : PerformanceDatum := { id := 2, pushTimestamp := 19000000, repositoryId := 4 }

/-- A two-row `performance_datum` table: one old row, one new row. -/
def dbW : List PerformanceDatum := [rowOldW, rowNewW]

/-- A treeherder database: one job referencing ancillary ids 10, 20, 30;
each ancillary table also holds one unreferenced id. -/
def thdbW : TreeherderDB :=
  { jobs := [{ id := 1, job_type_id := 10, job_group_id := 20, machine_id := 30 }]
    job_types := [10, 11]
    job_groups := [20, 21]
    machines := [30, 31] }

/-! ### Helper lemmas -/

theorem max?_isSome_of_mem {l : List Nat} {a : Nat} (h : a ∈ l) :
    ∃ m, l.max? = some m := by
  cases hm : l.max? with
  | none => rw [List.max?_eq_none_iff.mp hm] at h; cases h
  | some m => exact ⟨m, rfl⟩

theorem mem_deleteLimit_of_not (p : PerformanceDatum → Bool) (n : Nat)
    (db : List PerformanceDatum) (r : PerformanceDatum) (hr : r ∈ db)
    (hp : p r = false) : r ∈ deleteLimit p n db := by
  induction db generalizing n with
  | nil => cases hr
  | cons a rest ih =>
      cases n with
      | zero => simpa [deleteLimit] using hr
      | succ m =>
          rcases List.mem_cons.mp hr with rfl | hmem
          · simp only [deleteLimit, hp, Bool.false_eq_true, if_false]
            exact List.mem_cons_self _ _
          · simp only [deleteLimit]
            by_cases hpa : p a = true
            · simp only [hpa, if_true]
              exact ih m hmem
            · simp only [Bool.not_eq_true] at hpa
              simp only [hpa, Bool.false_eq_true, if_false]
              exact List.mem_cons_of_mem a (ih (m + 1) hmem)

theorem prune_statements_flatten (c : Nat) (hc : 0 < c) (ids : List Nat) :
    (prune_statements c ids).flatten = ids := by
  induction ids using prune_statements.induct c with
  | case1 ids h =>
      rw [prune_statements]
      simp only [h, dite_true]
      rcases h with h | h
      · omega
      · simp [h]
  | case2 ids h _ ih =>
      rw [prune_statements]
      simp only [h, dite_false]
      simp [List.flatten_cons, ih, List.take_append_drop]

theorem prune_statements_length (c : Nat) (hc : 0 < c) (ids : List Nat) :
    (prune_statements c ids).length = (ids.length + c - 1) / c := by
  induction ids using prune_statements.induct c with
  | case1 ids h =>
      rcases h with h | h
      · omega
      · subst h
        rw [prune_statements]
        simp [Nat.div_eq_of_lt (show c - 1 < c by omega)]
  | case2 ids h _ ih =>
      rw [prune_statements]
      simp only [h, dite_false, List.length_cons]
      push_neg at h
      have hpos : 0 < ids.length := List.length_pos.mpr h.2
      rw [ih]
      rw [List.length_drop]
      rcases Nat.lt_or_ge ids.length c with hlt | hge
      · have h1 : ids.length - c = 0 := by omega
        rw [h1]
        rw [Nat.div_eq_of_lt (show 0 + c - 1 < c by omega)]
        have h3 : (ids.length + c - 1) / c = 1 :=
          Nat.div_eq_of_lt_le (by omega) (by omega)
        rw [h3]
      · have h2 : ids.length + c - 1 = (ids.length - c + c - 1) + c := by omega
        rw [h2, Nat.add_div_right _ hc]

theorem prune_statements_chunk_le (c : Nat) (ids : List Nat) :
    ∀ st ∈ prune_statements c ids, st.length ≤ c := by
  induction ids using prune_statements.induct c with
  | case1 ids h => rw [prune_statements]; simp [h]
  | case2 ids h _ ih =>
      rw [prune_statements]
      simp only [h, dite_false, List.mem_cons]
      rintro st (rfl | hst)
      · simp [List.length_take]
      · exact ih st hst

theorem countP_contains_eq_one (x : Nat) (L : List (List Nat))
    (h : (L.map (List.count x)).sum = 1) :
    L.countP (fun st => st.contains x) = 1 := by
  induction L with
  | nil => simp at h
  | cons st rest ih =>
      simp only [List.map_cons, List.sum_cons] at h
      rw [List.countP_cons]
      rcases Nat.eq_zero_or_pos (st.count x) with h0 | hpos
      · have hx : x ∉ st := List.count_eq_zero.mp h0
        have hcond : (st.contains x) = false := by simp [List.elem_iff, hx]
        rw [hcond]
        simpa using ih (by omega)
      · have hx : x ∈ st := List.count_pos_iff.mp hpos
        have hrest : (rest.map (List.count x)).sum = 0 := by omega
        have hcount : rest.countP (fun st => st.contains x) = 0 := by
          rw [List.countP_eq_zero]
          intro st1 hst1
          have hz := List.sum_eq_zero_iff.mp hrest (st1.count x)
            (List.mem_map_of_mem _ hst1)
          simp [List.elem_iff, List.count_eq_zero.mp hz]
        have hcond : (st.contains x) = true := by simp [List.elem_iff, hx]
        rw [hcount, hcond]
        rfl

theorem mem_delete_ids (stmts : List (List Nat)) (table : List Nat) (i : Nat) :
    i ∈ delete_ids stmts table ↔ i ∈ table ∧ ∀ st ∈ stmts, i ∉ st := by
  induction stmts generalizing table with
  | nil => simp [delete_ids]
  | cons st rest ih =>
      simp only [delete_ids, List.foldl_cons] at *
      rw [ih]
      simp only [List.mem_filter, Bool.not_eq_true', List.mem_cons]
      constructor
      · rintro ⟨⟨hit, hst⟩, hrest⟩
        refine ⟨hit, ?_⟩
        rintro st1 (rfl | h1)
        · simp only [← List.elem_iff, hst]
          exact Bool.false_ne_true
        · exact hrest st1 h1
      · rintro ⟨hit, hall⟩
        refine ⟨⟨hit, ?_⟩, fun st1 h1 => hall st1 (Or.inr h1)⟩
        have := hall st (Or.inl rfl)
        simp only [← List.elem_iff] at this
        exact Bool.not_eq_true _ |>.mp this

theorem mem_used_ids (fk : Job → Nat) (jobs : List Job) (i : Nat) :
    i ∈ used_ids fk jobs ↔ ∃ j ∈ jobs, fk j = i := by
  simp [used_ids, List.mem_dedup, List.mem_map]

theorem mem_unused_ids (fk : Job → Nat) (jobs : List Job) (table : List Nat)
    (i : Nat) :
    i ∈ unused_ids fk jobs table ↔ i ∈ table ∧ ¬ ∃ j ∈ jobs, fk j = i := by
  simp [unused_ids, List.mem_filter, List.elem_iff, mem_used_ids]

theorem mem_prune (c : Nat) (hc : 0 < c) (fk : Job → Nat) (jobs : List Job)
    (table : List Nat) (i : Nat) (hi : i ∈ table) :
    i ∈ prune c fk jobs table ↔ ∃ j ∈ jobs, fk j = i := by
  unfold prune
  rw [mem_delete_ids]
  have hsub : ∀ st ∈ prune_statements c (unused_ids fk jobs table),
      ∀ x ∈ st, x ∈ unused_ids fk jobs table := by
    intro st hst x hx
    rw [← prune_statements_flatten c hc (unused_ids fk jobs table)]
    exact List.mem_flatten.mpr ⟨st, hst, hx⟩
  constructor
  · rintro ⟨-, hall⟩
    by_contra hno
    have hmem : i ∈ unused_ids fk jobs table :=
      (mem_unused_ids fk jobs table i).mpr ⟨hi, hno⟩
    rw [← prune_statements_flatten c hc (unused_ids fk jobs table)] at hmem
    obtain ⟨st, hst, hx⟩ := List.mem_flatten.mp hmem
    exact hall st hst hx
  · intro href
    refine ⟨hi, fun st hst hxin => ?_⟩
    have := (mem_unused_ids fk jobs table i).mp (hsub st hst i hxin)
    exact this.2 href

theorem try_repo_spec (s : TryDataRemoval) (repos : List Repository)
    (repo : Nat) (s1 : TryDataRemoval)
    (h : s.try_repo repos = some (repo, s1)) :
    s1.max_timestamp = s.max_timestamp ∧ s1.chunk_size = s.chunk_size ∧
    s1.cycle_interval = s.cycle_interval ∧
    s1.try_repo repos = some (repo, s1) := by
  unfold TryDataRemoval.try_repo at h ⊢
  cases hid : s.try_repo_id with
  | some i =>
      rw [hid] at h
      injection h with h
      injection h with h1 h2
      subst h1; subst h2
      simp [hid]
  | none =>
      rw [hid] at h
      cases hf : repos.find? (fun r => r.name == "try") with
      | none => rw [hf] at h; cases h
      | some r =>
          rw [hf] at h
          injection h with h
          injection h with h1 h2
          subst h1
          subst h2
          simp

theorem main_find_spec (s : MainRemovalStrategy) (db : List PerformanceDatum)
    (h : ∃ r ∈ db, s.max_timestamp < r.pushTimestamp) :
    ∃ k, s.find_ideal_chunk_size db = some k ∧ k ≤ s.chunk_size ∧
      ((∀ r ∈ db, ¬ r.pushTimestamp ≤ s.max_timestamp) → k = s.chunk_size) := by
  obtain ⟨r, hr, hlt⟩ := h
  have hmem : r.id ∈ (db.filter
      (fun r => decide (s.max_timestamp < r.pushTimestamp))).map (fun r => r.id) :=
    List.mem_map_of_mem _ (List.mem_filter.mpr ⟨hr, by simpa using hlt⟩)
  obtain ⟨m, hm⟩ := max?_isSome_of_mem hmem
  unfold MainRemovalStrategy.find_ideal_chunk_size MainRemovalStrategy.maxNewerId
  rw [hm]
  refine ⟨_, rfl, ?_, ?_⟩
  · dsimp only
    split
    · exact Nat.le_refl _
    · rw [List.length_take]
      exact Nat.min_le_left _ _
  · intro hall
    have hnil : db.filter (fun r =>
        decide (r.pushTimestamp ≤ s.max_timestamp) && decide (r.id ≤ m)) = [] := by
      rw [List.filter_eq_nil_iff]
      intro a ha
      simp [hall a ha]
    rw [hnil]
    simp

theorem try_find_spec (s : TryDataRemoval) (repos : List Repository)
    (db : List PerformanceDatum) (repo : Nat) (s1 : TryDataRemoval)
    (hrepo : s.try_repo repos = some (repo, s1))
    (h : ∃ r ∈ db, s1.max_timestamp < r.pushTimestamp ∧ r.repositoryId = repo) :
    ∃ k, s.find_ideal_chunk_size repos db = .ok (k, s1) ∧ k ≤ s1.chunk_size ∧
      ((∀ r ∈ db, r.repositoryId = repo → ¬ r.pushTimestamp ≤ s1.max_timestamp) →
        k = s1.chunk_size) := by
  obtain ⟨r, hr, hlt, hrid⟩ := h
  have hmem : r.id ∈ (db.filter (fun r =>
      decide (s1.max_timestamp < r.pushTimestamp) && r.repositoryId == repo)).map
        (fun r => r.id) :=
    List.mem_map_of_mem _ (List.mem_filter.mpr ⟨hr, by simp [hlt, hrid]⟩)
  obtain ⟨m, hm⟩ := max?_isSome_of_mem hmem
  unfold TryDataRemoval.find_ideal_chunk_size
  rw [hrepo]
  simp only [hm]
  refine ⟨_, rfl, ?_, ?_⟩
  · split
    · exact Nat.le_refl _
    · rw [List.length_take]
      exact Nat.min_le_left _ _
  · intro hall
    have hnil : db.filter (fun r =>
        decide (r.pushTimestamp ≤ s1.max_timestamp) && decide (r.id ≤ m)
          && r.repositoryId == repo) = [] := by
      rw [List.filter_eq_nil_iff]
      intro a ha
      by_cases hrep : a.repositoryId = repo
      · simp [hall a ha hrep]
      · simp [hrep]
    rw [hnil]
    simp

theorem try_find_state (t : TryDataRemoval) (repos : List Repository)
    (db : List PerformanceDatum) (k : Nat) (s1 : TryDataRemoval)
    (h : t.find_ideal_chunk_size repos db = .ok (k, s1)) :
    ∃ repo, t.try_repo repos = some (repo, s1) := by
  unfold TryDataRemoval.find_ideal_chunk_size at h
  split at h
  · cases h
  · split at h
    · cases h
    · injection h with h
      injection h with h1 h2
      subst h2
      exact ⟨_, by assumption⟩

theorem try_remove_spec (t : TryDataRemoval) (repos : List Repository)
    (db db1 : List PerformanceDatum) (t1 : TryDataRemoval)
    (h : t.remove repos db = .ok (db1, t1)) :
    t1.max_timestamp = t.max_timestamp ∧ t1.chunk_size = t.chunk_size ∧
    t1.cycle_interval = t.cycle_interval ∧
    ∃ repo k, db1 = deleteLimit
      (fun r => r.repositoryId == repo
        && decide (r.pushTimestamp < t1.max_timestamp)) k db := by
  unfold TryDataRemoval.remove at h
  split at h
  · cases h
  · rename_i k s1 hf
    obtain ⟨repo, hrepo⟩ := try_find_state t repos db k s1 hf
    obtain ⟨hts, hcs, hci, hidem⟩ := try_repo_spec t repos repo s1 hrepo
    rw [hidem] at h
    injection h with h
    injection h with h1 h2
    subst h1
    subst h2
    exact ⟨hts, hcs, hci, repo, k, rfl⟩

/-! ### Claim theorems -/

/-- C1 (amended): for every configured chunk size N and database state that
holds at least one row strictly newer than the cutoff (in the strategy's
scope, for the scoped strategy), `_find_ideal_chunk_size` returns a value
that is at most N, and returns exactly N when no rows are at or older than
the cutoff timestamp. As stated over *every* database state the claim fails,
because with no row newer than the cutoff the computation raises IndexError
instead of returning; see the counterexample. -/
theorem C1_chunk_size_bounded (s : MainRemovalStrategy)
    (db : List PerformanceDatum) (t : TryDataRemoval) (repos : List Repository)
    (repo : Nat) (t1 : TryDataRemoval)
    (hmain : ∃ r ∈ db, s.max_timestamp < r.pushTimestamp)
    (hrepo : t.try_repo repos = some (repo, t1))
    (htry : ∃ r ∈ db, t1.max_timestamp < r.pushTimestamp ∧ r.repositoryId = repo) :
    (∃ k, s.find_ideal_chunk_size db = some k ∧ k ≤ s.chunk_size ∧
      ((∀ r ∈ db, ¬ r.pushTimestamp ≤ s.max_timestamp) → k = s.chunk_size)) ∧
    (∃ k, t.find_ideal_chunk_size repos db = .ok (k, t1) ∧ k ≤ t.chunk_size ∧
      ((∀ r ∈ db, r.repositoryId = repo → ¬ r.pushTimestamp ≤ t1.max_timestamp) →
        k = t.chunk_size)) := by
  refine ⟨main_find_spec s db hmain, ?_⟩
  obtain ⟨hts, hcs, hci, hidem⟩ := try_repo_spec t repos repo t1 hrepo
  obtain ⟨k, hk1, hk2, hk3⟩ := try_find_spec t repos db repo t1 hrepo htry
  rw [hcs] at hk2 hk3
  exact ⟨k, hk1, hk2, hk3⟩

/-- C1 fails as stated: on the empty table no rows are at or older than the
cutoff, so the claim demands that the configured chunk size (here 100) be
returned; instead `_find_ideal_chunk_size` returns no value at all (the
boundary-id lookup raises IndexError). -/
theorem C1_counterexample :
    mainW.find_ideal_chunk_size [] = none ∧
    (∀ r ∈ ([] : List PerformanceDatum),
      ¬ r.pushTimestamp ≤ mainW.max_timestamp) ∧ mainW.chunk_size = 100 :=
  ⟨rfl, fun r hr => absurd hr (List.not_mem_nil r), rfl⟩

/-- Witness for C1 at a concrete database with one old and one new row. -/
theorem C1_witness :
    (∃ r ∈ dbW, mainW.max_timestamp < r.pushTimestamp) ∧
    (tryW.try_repo reposW = some (4, tryW1)) ∧
    (∃ r ∈ dbW, tryW1.max_timestamp < r.pushTimestamp ∧ r.repositoryId = 4) ∧
    ((∃ k, mainW.find_ideal_chunk_size dbW = some k ∧ k ≤ mainW.chunk_size ∧
        ((∀ r ∈ dbW, ¬ r.pushTimestamp ≤ mainW.max_timestamp) →
          k = mainW.chunk_size)) ∧
     (∃ k, tryW.find_ideal_chunk_size reposW dbW = .ok (k, tryW1) ∧
        k ≤ tryW.chunk_size ∧
        ((∀ r ∈ dbW, r.repositoryId = 4 → ¬ r.pushTimestamp ≤ tryW1.max_timestamp) →
          k = tryW.chunk_size))) :=
  ⟨by decide, by decide, by decide,
   C1_chunk_size_bounded mainW dbW tryW reposW 4 tryW1 (by decide) (by decide)
     (by decide)⟩

/-- C2: the claim (and spec scenario) says a scoped strategy whose named
scope holds no rows performs a no-op delete, the chunk size falling back to
the configured default, and completes normally. The code instead raises
IndexError from the scope's boundary-id lookup: evaluated here at a state
where the `try` repository exists (id 4) but no `performance_datum` row
belongs to it, `remove` raises instead of completing. The `or chunk_size`
fallback in `_find_ideal_chunk_size` shows the fall-back intent, but the
`order_by('-id')[0]` lookup runs first and fails. -/
theorem C2_empty_scope_raises :
    tryW.remove reposW [{ id := 7, pushTimestamp := 0, repositoryId := 9 }] =
      Except.error "IndexError" := by
  rfl

/-- C9: the unscoped strategy's `_find_ideal_chunk_size` fails (raises
IndexError, modelled as `none`) exactly when no row is strictly newer than
the cutoff — even when rows at or older than the cutoff exist — and `remove`
succeeds exactly when at least one row newer than the cutoff exists. -/
theorem C9_remove_requires_newer_row (s : MainRemovalStrategy)
    (db : List PerformanceDatum) :
    (s.find_ideal_chunk_size db = none ↔
      ∀ r ∈ db, r.pushTimestamp ≤ s.max_timestamp) ∧
    ((∃ db1, s.remove db = Except.ok db1) ↔
      ∃ r ∈ db, s.max_timestamp < r.pushTimestamp) := by
  have hiff : s.maxNewerId db = none ↔
      ∀ r ∈ db, r.pushTimestamp ≤ s.max_timestamp := by
    unfold MainRemovalStrategy.maxNewerId
    rw [List.max?_eq_none_iff, List.map_eq_nil_iff, List.filter_eq_nil_iff]
    constructor
    · intro hall r hr
      simpa [not_lt] using hall r hr
    · intro hall r hr
      simpa [not_lt] using hall r hr
  have hfind : s.find_ideal_chunk_size db = none ↔ s.maxNewerId db = none := by
    unfold MainRemovalStrategy.find_ideal_chunk_size
    cases hm : s.maxNewerId db with
    | none => simp
    | some m => simp
  have hrem : (∃ db1, s.remove db = Except.ok db1) ↔
      ¬ s.find_ideal_chunk_size db = none := by
    unfold MainRemovalStrategy.remove
    cases hf : s.find_ideal_chunk_size db with
    | none => simp
    | some k => simp
  have hneg : ¬ (∀ r ∈ db, r.pushTimestamp ≤ s.max_timestamp) ↔
      ∃ r ∈ db, s.max_timestamp < r.pushTimestamp := by
    constructor
    · intro h1
      push_neg at h1
      exact h1
    · intro h1 h2
      obtain ⟨r, hr, hlt⟩ := h1
      exact absurd (h2 r hr) (not_le.mpr hlt)
  refine ⟨hfind.trans hiff, hrem.trans ?_⟩
  rw [hfind, hiff]
  exact hneg

/-- C3: each strategy's cutoff timestamp equals its construction-time clock
reading minus its cutoff interval, is fixed at construction (`remove` leaves
it unchanged), and `remove` never deletes a row whose `push_timestamp` is at
or after the cutoff: rows surviving every delete include all rows not
strictly older than the cutoff. -/
theorem C3_cutoff_fixed_and_respected (cycle_interval : Int) (chunk_size : Nat)
    (now : Int) (s : MainRemovalStrategy) (t : TryDataRemoval)
    (repos : List Repository) (db : List PerformanceDatum) :
    (MainRemovalStrategy.init cycle_interval chunk_size now).max_timestamp =
      now - cycle_interval ∧
    (TryDataRemoval.init chunk_size now).max_timestamp =
      now - (TryDataRemoval.init chunk_size now).cycle_interval ∧
    (∀ db1, s.remove db = Except.ok db1 →
      ∀ r ∈ db, s.max_timestamp ≤ r.pushTimestamp → r ∈ db1) ∧
    (∀ db1 t1, t.remove repos db = Except.ok (db1, t1) →
      t1.max_timestamp = t.max_timestamp ∧
      ∀ r ∈ db, t.max_timestamp ≤ r.pushTimestamp → r ∈ db1) := by
  refine ⟨rfl, rfl, ?_, ?_⟩
  · intro db1 h r hr hge
    unfold MainRemovalStrategy.remove at h
    split at h
    · cases h
    · injection h with h
      subst h
      exact mem_deleteLimit_of_not _ _ db r hr (decide_eq_false (not_lt.mpr hge))
  · intro db1 t1 h
    obtain ⟨hts, -, -, repo, k, hdb⟩ := try_remove_spec t repos db db1 t1 h
    refine ⟨hts, fun r hr hge => ?_⟩
    subst hdb
    refine mem_deleteLimit_of_not _ _ db r hr ?_
    rw [hts]
    simp [decide_eq_false (not_lt.mpr hge)]

/-- Witness for C3 at a concrete strategy pair and two-row database. -/
theorem C3_witness :
    (mainW.remove dbW = Except.ok [rowNewW] ∧
      mainW.max_timestamp ≤ rowNewW.pushTimestamp ∧ rowNewW ∈ dbW) ∧
    (tryW.remove reposW dbW = Except.ok ([rowNewW], tryW1) ∧
      tryW.max_timestamp ≤ rowNewW.pushTimestamp) ∧
    rowNewW ∈ [rowNewW] ∧ tryW1.max_timestamp = tryW.max_timestamp := by
  have h := C3_cutoff_fixed_and_respected (timedeltaDays 120) 100 nowW mainW
    tryW reposW dbW
  refine ⟨⟨by rfl, by decide, by decide⟩, ⟨by rfl, by decide⟩, ?_, ?_⟩
  · exact h.2.2.1 [rowNewW] (by rfl) rowNewW (by decide) (by decide)
  · exact (h.2.2.2 [rowNewW] tryW1 (by rfl)).1

/-- C4: constructing the performance-data cycler succeeds iff the retention
interval is at least the 365-day floor or the override hostname is declared;
otherwise it raises `ValueError`. Construction is a pure function of the
options — it takes no database state, so it fails before any deletion could
touch the database. -/
theorem C4_perfherder_floor (days : Int) (chunk_size sleep_time : Nat)
    (host : String) :
    ((∃ c, PerfherderCycler.init days chunk_size sleep_time host = Except.ok c) ↔
      (MINIMUM_PERFHERDER_EXPIRE_INTERVAL ≤ days ∨ host = PROTOTYPE2_HOSTNAME)) ∧
    (PerfherderCycler.init days chunk_size sleep_time host =
        Except.error "Cannot remove performance data that is more recent than 365 days" ↔
      (days < MINIMUM_PERFHERDER_EXPIRE_INTERVAL ∧ host ≠ PROTOTYPE2_HOSTNAME)) := by
  unfold PerfherderCycler.init
  by_cases hc : days < MINIMUM_PERFHERDER_EXPIRE_INTERVAL ∧ host ≠ PROTOTYPE2_HOSTNAME
  · rw [if_pos hc]
    constructor
    · constructor
      · rintro ⟨c, hcon⟩
        cases hcon
      · intro hok
        rcases hok with hok | hok
        · exact absurd hok (not_le.mpr hc.1)
        · exact absurd hok hc.2
    · simp [hc]
  · rw [if_neg hc]
    constructor
    · constructor
      · intro hex
        by_cases hd : MINIMUM_PERFHERDER_EXPIRE_INTERVAL ≤ days
        · exact Or.inl hd
        · refine Or.inr ?_
          by_contra hh
          exact hc ⟨not_le.mp hd, hh⟩
      · intro hok
        exact ⟨_, rfl⟩
    · constructor
      · intro hcon
        cases hcon
      · intro hboth
        exact absurd hboth hc

/-- C5: when the primary bulk-delete collaborator (`Job.objects.cycle_data`)
raises `OperationalError`, `TreeherderCycler.cycle` catches it, logs the
error message, still runs `remove_leftovers` afterwards, and returns
normally — the error is not propagated to the caller. -/
theorem C5_operational_error_still_prunes (chunk_size : Nat)
    (db : TreeherderDB) (msg : String) (jobs1 : List Job) :
    TreeherderCycler.cycle chunk_size db
        (JobsCycleOutcome.operationalError msg jobs1) =
      Except.ok
        (TreeherderCycler.remove_leftovers chunk_size { db with jobs := jobs1 },
         ["Cycling jobs across all repositories",
          "Error running cycle_data: " ++ msg,
          "Pruning ancillary data: job types, groups and machines"]) := rfl

/-- C6: `PerfherderCycler.cycle` catches exactly the `MaxRuntimeExceeded`
signal, logging it as a warning and returning normally; a run completing
without a signal also returns normally, and any other exception propagates
to the caller uncaught. -/
theorem C6_max_runtime_caught (msg : String) :
    PerfherderCycler.cycle_handle (PerfCycleOutcome.maxRuntimeExceeded msg) =
      Except.ok [msg] ∧
    PerfherderCycler.cycle_handle PerfCycleOutcome.completed = Except.ok [] ∧
    PerfherderCycler.cycle_handle (PerfCycleOutcome.failed msg) =
      Except.error msg :=
  ⟨rfl, rfl, rfl⟩

/-- C7: after the orphan-pruning pass, for each pruned ancillary kind (job
types, job groups, machines), an ancillary id survives iff some job still
references it: every unreferenced ancillary record is deleted, and no
referenced ancillary record is deleted. -/
theorem C7_orphan_pruning (chunk_size : Nat) (hc : 0 < chunk_size)
    (db : TreeherderDB) :
    (∀ i ∈ db.job_types,
      i ∈ (TreeherderCycler.remove_leftovers chunk_size db).job_types ↔
        ∃ j ∈ db.jobs, j.job_type_id = i) ∧
    (∀ i ∈ db.job_groups,
      i ∈ (TreeherderCycler.remove_leftovers chunk_size db).job_groups ↔
        ∃ j ∈ db.jobs, j.job_group_id = i) ∧
    (∀ i ∈ db.machines,
      i ∈ (TreeherderCycler.remove_leftovers chunk_size db).machines ↔
        ∃ j ∈ db.jobs, j.machine_id = i) := by
  refine ⟨?_, ?_, ?_⟩ <;>
    · intro i hi
      exact mem_prune chunk_size hc _ db.jobs _ i hi

/-- Witness for C7 at a concrete treeherder database. -/
theorem C7_witness :
    0 < 1 ∧
    ((∀ i ∈ thdbW.job_types,
        i ∈ (TreeherderCycler.remove_leftovers 1 thdbW).job_types ↔
          ∃ j ∈ thdbW.jobs, j.job_type_id = i) ∧
     (∀ i ∈ thdbW.job_groups,
        i ∈ (TreeherderCycler.remove_leftovers 1 thdbW).job_groups ↔
          ∃ j ∈ thdbW.jobs, j.job_group_id = i) ∧
     (∀ i ∈ thdbW.machines,
        i ∈ (TreeherderCycler.remove_leftovers 1 thdbW).machines ↔
          ∃ j ∈ thdbW.jobs, j.machine_id = i)) :=
  ⟨by decide, C7_orphan_pruning 1 (by decide) thdbW⟩

/-- C8: for every positive chunk size c and list of distinct unreferenced
ids, the per-kind pruning loop terminates (the embedding is a total
function), issues exactly ceil(n / c) delete statements, each covering at
most c ids, their concatenation is exactly the id list, and each id appears
in exactly one delete statement. -/
theorem C8_prune_loop (c : Nat) (hc : 0 < c) (ids : List Nat)
    (hnd : ids.Nodup) :
    (prune_statements c ids).length = (ids.length + c - 1) / c ∧
    (∀ st ∈ prune_statements c ids, st.length ≤ c) ∧
    (prune_statements c ids).flatten = ids ∧
    (∀ i ∈ ids, (prune_statements c ids).countP (fun st => st.contains i) = 1) := by
  refine ⟨prune_statements_length c hc ids, prune_statements_chunk_le c ids,
    prune_statements_flatten c hc ids, ?_⟩
  intro i hi
  apply countP_contains_eq_one
  have hflat := prune_statements_flatten c hc ids
  have hcount : ids.count i = 1 := List.count_eq_one_of_mem hnd hi
  have hjoin : (prune_statements c ids).flatten.count i =
      ((prune_statements c ids).map (List.count i)).sum := List.count_flatten ..
  rw [hflat, hcount] at hjoin
  exact hjoin.symm

/-- Witness for C8 at chunk size 2 over three distinct ids. -/
theorem C8_witness :
    0 < 2 ∧ ([5, 6, 7] : List Nat).Nodup ∧
    ((prune_statements 2 [5, 6, 7]).length = (([5, 6, 7] : List Nat).length + 2 - 1) / 2 ∧
     (∀ st ∈ prune_statements 2 [5, 6, 7], st.length ≤ 2) ∧
     (prune_statements 2 [5, 6, 7]).flatten = [5, 6, 7] ∧
     (∀ i ∈ ([5, 6, 7] : List Nat),
        (prune_statements 2 [5, 6, 7]).countP (fun st => st.contains i) = 1)) :=
  ⟨by decide, by decide, C8_prune_loop 2 (by decide) [5, 6, 7] (by decide)⟩

/-- C10: any two validated performance cyclers that share a chunk size but
are configured with arbitrary, possibly different, `days` options construct
identical scoped try-data strategies — the days value is not passed to that
strategy and has no effect on it — and the try strategy's cutoff is its
construction time minus exactly 4 weeks (28 days). -/
theorem C10_try_interval_fixed (days1 days2 : Int) (chunk_size sleep_time : Nat)
    (host : String) (now : Int) (c1 c2 : PerfherderCycler)
    (h1 : PerfherderCycler.init days1 chunk_size sleep_time host = Except.ok c1)
    (h2 : PerfherderCycler.init days2 chunk_size sleep_time host = Except.ok c2) :
    (c1.removal_strategies now).2 = (c2.removal_strategies now).2 ∧
    (c1.removal_strategies now).2.max_timestamp = now - timedeltaWeeks 4 ∧
    timedeltaWeeks 4 = timedeltaDays 28 := by
  have e1 : c1.chunk_size = chunk_size := by
    unfold PerfherderCycler.init at h1
    split at h1
    · cases h1
    · injection h1 with h1
      subst h1
      rfl
  have e2 : c2.chunk_size = chunk_size := by
    unfold PerfherderCycler.init at h2
    split at h2
    · cases h2
    · injection h2 with h2
      subst h2
      rfl
  refine ⟨?_, rfl, by decide⟩
  simp [PerfherderCycler.removal_strategies, TryDataRemoval.init, e1, e2]

/-- Witness for C10 at intervals of 365 and 400 days. -/
theorem C10_witness :
    (PerfherderCycler.init 365 100 0 "treeherder.mozilla.org" =
      Except.ok { cycle_interval := timedeltaDays 365, chunk_size := 100,
                  sleep_time := 0 }) ∧
    (PerfherderCycler.init 400 100 0 "treeherder.mozilla.org" =
      Except.ok { cycle_interval := timedeltaDays 400, chunk_size := 100,
                  sleep_time := 0 }) ∧
    (({ cycle_interval := timedeltaDays 365, chunk_size := 100, sleep_time := 0 :
          PerfherderCycler }.removal_strategies nowW).2 =
      ({ cycle_interval := timedeltaDays 400, chunk_size := 100, sleep_time := 0 :
          PerfherderCycler }.removal_strategies nowW).2 ∧
     ({ cycle_interval := timedeltaDays 365, chunk_size := 100, sleep_time := 0 :
          PerfherderCycler }.removal_strategies nowW).2.max_timestamp =
        nowW - timedeltaWeeks 4 ∧
     timedeltaWeeks 4 = timedeltaDays 28) :=
  ⟨rfl, rfl,
   C10_try_interval_fixed 365 400 100 0 "treeherder.mozilla.org" nowW _ _ rfl rfl⟩
